import Mathlib

/-
Verification of the binary codec layer of `pac_tool.py`: the PAC archive
reader/builder, the TTP animation codec, the BMZ compressed-bitmap payload
and the SHIFT-JIS-encoded text fields.

Byte strings are modelled as `List Nat` (each element a byte value).
Python exceptions become `Except PErr`.  The external SHIFT-JIS codec used
via `str.encode("shift_jis")` / `bytes.decode("shift_jis")` is modelled by
a concrete unit-level codec: a decoded string is a list of `SjUnit`s, where
a unit is either a valid single byte, a valid lead/trail double-byte pair,
or the replacement character produced by permissive decoding.  The model
keeps the byte-range structure of SHIFT-JIS (single bytes 0x00-0x7F and
0xA1-0xDF, lead bytes 0x81-0x9F and 0xE0-0xEF, trail bytes 0x40-0xFC
except 0x7F) and abstracts over the code-point assignment table, treating
every range-valid pair as assigned.  Strict encoding fails on the
replacement unit exactly as Python's strict "shift_jis" encoder fails on
U+FFFD; permissive encoding substitutes ASCII `?` (byte 63).
-/

/-- Error kinds raised by the Python code: `truncated` stands for
`struct.error` on a short buffer and `EOFError`; `structRange` for
`struct.error` on an out-of-range pack value; `encodeErr` for
`UnicodeEncodeError`; `valueErr` for `ValueError`. -/
inductive PErr where
  | truncated
  | structRange
  | encodeErr
  | valueErr
deriving DecidableEq, Repr

/-- Valid SHIFT-JIS single-byte values: ASCII range and half-width katakana. -/
def isSingleByte (b : Nat) : Bool := b ≤ 0x7F || (0xA1 ≤ b && b ≤ 0xDF)

/-- Valid SHIFT-JIS lead bytes of a double-byte sequence. -/
def isLead (b : Nat) : Bool := (0x81 ≤ b && b ≤ 0x9F) || (0xE0 ≤ b && b ≤ 0xEF)

/-- Valid SHIFT-JIS trail bytes of a double-byte sequence. -/
def isTrail (b : Nat) : Bool := 0x40 ≤ b && b ≤ 0xFC && b ≠ 0x7F

/-- One unit of a decoded legacy-encoded string: a single-byte character, a
double-byte character, or the replacement character U+FFFD produced by
permissive decoding of an invalid sequence. -/
inductive SjUnit where
  | single (b : Nat)
  | double (b1 b2 : Nat)
  | repl
deriving DecidableEq, Repr

/-- A unit is valid when its bytes lie in the legal SHIFT-JIS ranges; the
replacement character is never valid (it has no strict encoding). -/
def SjUnit.valid : SjUnit → Bool
  | .single b => isSingleByte b
  | .double a b => isLead a && isTrail b
  | .repl => false

/-- All units of a string are valid, i.e. the string is representable in
the legacy encoding. -/
def sjisValid (us : List SjUnit) : Bool := us.all SjUnit.valid

/-- Model of `bytes.decode("shift_jis", errors="replace")`: scan bytes,
emitting singles, lead/trail doubles, and a replacement unit for each
invalid byte.  `bytes.decode("shift_jis")` (strict) succeeds with the same
result exactly when no replacement unit is produced. -/
def sjisDecodeReplace : List Nat → List SjUnit
  | [] => []
  | b :: rest =>
    if isSingleByte b then .single b :: sjisDecodeReplace rest
    else if isLead b then
      match rest with
      | [] => [.repl]
      | b2 :: r2 =>
        if isTrail b2 then .double b b2 :: sjisDecodeReplace r2
        else .repl :: sjisDecodeReplace (b2 :: r2)
    else .repl :: sjisDecodeReplace rest

/-- Model of strict `str.encode("shift_jis")`: emits each unit's bytes and
raises `UnicodeEncodeError` on a replacement unit. -/
def sjisEncodeStrict : List SjUnit → Except PErr (List Nat)
  | [] => .ok []
  | .single b :: rest => (sjisEncodeStrict rest).map (fun r => b :: r)
  | .double a b :: rest => (sjisEncodeStrict rest).map (fun r => a :: b :: r)
  | .repl :: _ => .error .encodeErr

/-- Model of `str.encode("shift_jis", errors="replace")`: like the strict
encoder but a replacement unit becomes ASCII `?` (byte 63). -/
def sjisEncodeReplace : List SjUnit → List Nat
  | [] => []
  | .single b :: rest => b :: sjisEncodeReplace rest
  | .double a b :: rest => a :: b :: sjisEncodeReplace rest
  | .repl :: rest => 63 :: sjisEncodeReplace rest

/-- Little-endian 4-byte rendering of a value below `2^32`
(the byte payload of `struct.pack("<I", n)`). -/
def u32le (n : Nat) : List Nat :=
  [n % 256, n / 256 % 256, n / 65536 % 256, n / 16777216 % 256]

/-- `struct.pack("<I", n)`: little-endian u32, `struct.error` when the
value does not fit. -/
def packU32 (n : Nat) : Except PErr (List Nat) :=
  if n < 4294967296 then .ok (u32le n) else .error .structRange

/-- `struct.pack("<B", n)`: a single byte, `struct.error` when the value
does not fit. -/
def packU8 (n : Nat) : Except PErr Nat :=
  if n < 256 then .ok n else .error .structRange

/-- `struct.unpack("<I", data[:4])`: read a little-endian u32 from the
first four bytes, `struct.error` when fewer than four bytes remain. -/
def unpackU32 : List Nat → Except PErr Nat
  | b0 :: b1 :: b2 :: b3 :: _ =>
      .ok (b0 + 256 * b1 + 65536 * b2 + 16777216 * b3)
  | _ => .error .truncated

/-- `struct.unpack("<4I", data[:16])`: four little-endian u32 values,
`struct.error` when fewer than sixteen bytes remain. -/
def unpack4U32 (l : List Nat) : Except PErr (Nat × Nat × Nat × Nat) :=
  if 16 ≤ l.length then
    match unpackU32 l, unpackU32 (l.drop 4), unpackU32 (l.drop 8),
        unpackU32 (l.drop 12) with
    | .ok a, .ok b, .ok c, .ok d => .ok (a, b, c, d)
    | _, _, _, _ => .error .truncated
  else .error .truncated

/-- `struct.unpack("<5I", data[:20])`: five little-endian u32 values,
`struct.error` when fewer than twenty bytes remain. -/
def unpack5U32 (l : List Nat) : Except PErr (Nat × Nat × Nat × Nat × Nat) :=
  if 20 ≤ l.length then
    match unpackU32 l, unpackU32 (l.drop 4), unpackU32 (l.drop 8),
        unpackU32 (l.drop 12), unpackU32 (l.drop 16) with
    | .ok a, .ok b, .ok c, .ok d, .ok e => .ok (a, b, c, d, e)
    | _, _, _, _, _ => .error .truncated
  else .error .truncated

instance {ε α : Type} [DecidableEq ε] [DecidableEq α] : DecidableEq (Except ε α) :=
  fun x y =>
    match x, y with
    | .ok a, .ok b =>
        if h : a = b then .isTrue (by rw [h])
        else .isFalse (fun hc => h (Except.ok.inj hc))
    | .error a, .error b =>
        if h : a = b then .isTrue (by rw [h])
        else .isFalse (fun hc => h (Except.error.inj hc))
    | .ok _, .error _ => .isFalse (fun hc => Except.noConfusion hc)
    | .error _, .ok _ => .isFalse (fun hc => Except.noConfusion hc)

/-- The class `ResName` of `pac_tool.py`: a variable-length
SHIFT-JIS-encoded resource name.  Its `value` is the decoded string,
modelled as a list of codec units. -/
structure ResName where
  value : List SjUnit
deriving DecidableEq, Repr

/-- `ResName.from_bytes`: read a little-endian u32 length `L`, slice the
next `L` bytes (Python slicing silently returns fewer when the buffer is
short) and decode them, falling back to permissive decoding on invalid
sequences (the try/except in the source makes the result identical to
always decoding permissively). -/
def ResName.from_bytes (data : List Nat) : Except PErr ResName :=
  match unpackU32 data with
  | .error e => .error e
  | .ok length => .ok ⟨sjisDecodeReplace ((data.drop 4).take length)⟩

/-- `ResName.to_bytes`: encode the value (strict encode with a
replace-on-error fallback, which is identical to permissive encoding),
then emit the 4-byte little-endian length followed by the bytes. -/
def ResName.to_bytes (r : ResName) : Except PErr (List Nat) :=
  match packU32 (sjisEncodeReplace r.value).length with
  | .error e => .error e
  | .ok lp => .ok (lp ++ sjisEncodeReplace r.value)

/-- The class `TtpFrame` of `pac_tool.py`: one frame of an animation. -/
structure TtpFrame where
  sprite_name : ResName
  se_name : ResName
  textbox_name : ResName
  delay_ms : Nat
  x_offset_textbox : Nat
  y_offset_textbox : Nat
  x_offset : Nat
  y_offset : Nat
deriving DecidableEq, Repr

/-- `TtpFrame.from_bytes`: decode the three resource names, advancing the
position after each by `4 + len(value.encode("shift_jis"))` — a strict
re-encode of the decoded value, which raises `UnicodeEncodeError` when the
value contains a replacement character — then read the five little-endian
u32 fields. -/
def TtpFrame.from_bytes (data : List Nat) : Except PErr TtpFrame :=
  match ResName.from_bytes data with
  | .error e => .error e
  | .ok sprite =>
  match sjisEncodeStrict sprite.value with
  | .error e => .error e
  | .ok e1 =>
  match ResName.from_bytes (data.drop (4 + e1.length)) with
  | .error e => .error e
  | .ok se =>
  match sjisEncodeStrict se.value with
  | .error e => .error e
  | .ok e2 =>
  match ResName.from_bytes (data.drop (4 + e1.length + (4 + e2.length))) with
  | .error e => .error e
  | .ok tb =>
  match sjisEncodeStrict tb.value with
  | .error e => .error e
  | .ok e3 =>
  match unpack5U32 (data.drop (4 + e1.length + (4 + e2.length) + (4 + e3.length))) with
  | .error e => .error e
  | .ok (i1, i2, i3, i4, i5) =>
      .ok { sprite_name := sprite, se_name := se, textbox_name := tb,
            delay_ms := i1, x_offset_textbox := i2, y_offset_textbox := i3,
            x_offset := i4, y_offset := i5 }

/-- `TtpFrame.to_bytes`: the three name encodings followed by the five
little-endian u32 fields. -/
def TtpFrame.to_bytes (f : TtpFrame) : Except PErr (List Nat) :=
  match ResName.to_bytes f.sprite_name with
  | .error e => .error e
  | .ok b1 =>
  match ResName.to_bytes f.se_name with
  | .error e => .error e
  | .ok b2 =>
  match ResName.to_bytes f.textbox_name with
  | .error e => .error e
  | .ok b3 =>
  match packU32 f.delay_ms with
  | .error e => .error e
  | .ok p1 =>
  match packU32 f.x_offset_textbox with
  | .error e => .error e
  | .ok p2 =>
  match packU32 f.y_offset_textbox with
  | .error e => .error e
  | .ok p3 =>
  match packU32 f.x_offset with
  | .error e => .error e
  | .ok p4 =>
  match packU32 f.y_offset with
  | .error e => .error e
  | .ok p5 => .ok (b1 ++ b2 ++ b3 ++ (p1 ++ p2 ++ p3 ++ p4 ++ p5))

/-- Position advance per frame inside `TtpFile.from_bytes` (source lines
162-165): `4 + len(encode(sprite)) + 4 + len(encode(se)) +
4 + len(encode(textbox)) + 20`, with strict encodes that can raise. -/
def TtpFrame.consumedLen (f : TtpFrame) : Except PErr Nat :=
  match sjisEncodeStrict f.sprite_name.value with
  | .error e => .error e
  | .ok e1 =>
  match sjisEncodeStrict f.se_name.value with
  | .error e => .error e
  | .ok e2 =>
  match sjisEncodeStrict f.textbox_name.value with
  | .error e => .error e
  | .ok e3 => .ok (4 + e1.length + (4 + e2.length) + (4 + e3.length) + 20)

/-- The class `TtpFile` of `pac_tool.py`: an encoded animation. -/
structure TtpFile where
  maybe_ttp_type : Nat
  frame_count : Nat
  window_width : Nat
  window_height : Nat
  frames : List TtpFrame
  onetime_wakeup_dont_play_sound : Option Nat
deriving DecidableEq, Repr

/-- The frame-reading loop of `TtpFile.from_bytes`: decode `n` frames,
advancing past each by its `consumedLen`; returns the frames and the
remaining bytes (the suffix from the final position). -/
def readFrames : Nat → List Nat → Except PErr (List TtpFrame × List Nat)
  | 0, remaining => .ok ([], remaining)
  | n + 1, remaining =>
    match TtpFrame.from_bytes remaining with
    | .error e => .error e
    | .ok f =>
    match f.consumedLen with
    | .error e => .error e
    | .ok c =>
    match readFrames n (remaining.drop c) with
    | .error e => .error e
    | .ok (fs, rem) => .ok (f :: fs, rem)

/-- `TtpFile.from_bytes`: read the 4-integer header, then exactly
`frame_count` frames, then — when `maybe_ttp_type == 3` and at least one
byte remains — a single trailing byte. -/
def TtpFile.from_bytes (data : List Nat) : Except PErr TtpFile :=
  match unpack4U32 data with
  | .error e => .error e
  | .ok (t, fc, ww, wh) =>
  match readFrames fc (data.drop 16) with
  | .error e => .error e
  | .ok (fs, rem) =>
      .ok { maybe_ttp_type := t, frame_count := fc, window_width := ww,
            window_height := wh, frames := fs,
            onetime_wakeup_dont_play_sound :=
              if t = 3 then
                match rem with
                | [] => none
                | b :: _ => some b
              else none }

/-- `TtpFile.to_bytes`: pack the 4-integer header from the stored fields
(`frame_count` as stored, not recomputed from `frames`), then each frame,
then the optional trailing byte iff `maybe_ttp_type == 3` and the field is
set. -/
def TtpFile.to_bytes (t : TtpFile) : Except PErr (List Nat) :=
  match packU32 t.maybe_ttp_type with
  | .error e => .error e
  | .ok h1 =>
  match packU32 t.frame_count with
  | .error e => .error e
  | .ok h2 =>
  match packU32 t.window_width with
  | .error e => .error e
  | .ok h3 =>
  match packU32 t.window_height with
  | .error e => .error e
  | .ok h4 =>
  match t.frames.mapM TtpFrame.to_bytes with
  | .error e => .error e
  | .ok fbs =>
  match (if t.maybe_ttp_type = 3 then
           match t.onetime_wakeup_dont_play_sound with
           | some v =>
             match packU8 v with
             | .error e => .error e
             | .ok b => .ok [b]
           | none => .ok []
         else (.ok [] : Except PErr (List Nat))) with
  | .error e => .error e
  | .ok tailB => .ok (h1 ++ h2 ++ h3 ++ h4 ++ fbs.flatten ++ tailB)

/-- Shape of the parsed JSON dictionary consumed by `TtpFrame.from_dict`
(one frame object of the editable document). -/
structure TtpFrameDoc where
  sprite_name : List SjUnit
  se_name : List SjUnit
  textbox_name : List SjUnit
  delay_ms : Nat
  x_offset_textbox : Nat
  y_offset_textbox : Nat
  x_offset : Nat
  y_offset : Nat
deriving DecidableEq, Repr

/-- Shape of the parsed JSON dictionary consumed by `TtpFile.from_dict`
(the editable animation document; the optional key becomes an `Option`). -/
structure TtpDoc where
  maybe_ttp_type : Nat
  frame_count : Nat
  window_width : Nat
  window_height : Nat
  frames : List TtpFrameDoc
  onetime_wakeup_dont_play_sound : Option Nat
deriving DecidableEq, Repr

/-- `TtpFrame.from_dict`: field-by-field copy from the parsed dictionary
(`ResName.from_json` is the identity on the text value). -/
def TtpFrame.from_dict (d : TtpFrameDoc) : TtpFrame :=
  { sprite_name := ⟨d.sprite_name⟩, se_name := ⟨d.se_name⟩,
    textbox_name := ⟨d.textbox_name⟩, delay_ms := d.delay_ms,
    x_offset_textbox := d.x_offset_textbox,
    y_offset_textbox := d.y_offset_textbox,
    x_offset := d.x_offset, y_offset := d.y_offset }

/-- `TtpFile.from_dict`: field-by-field copy from the parsed dictionary;
`frame_count` is taken from the dictionary's declared value, not from the
length of `frames`. -/
def TtpFile.from_dict (d : TtpDoc) : TtpFile :=
  { maybe_ttp_type := d.maybe_ttp_type, frame_count := d.frame_count,
    window_width := d.window_width, window_height := d.window_height,
    frames := d.frames.map TtpFrame.from_dict,
    onetime_wakeup_dont_play_sound := d.onetime_wakeup_dont_play_sound }

/-- The `b"ZLC3"` magic marker of a compressed-bitmap payload. -/
def zlc3Magic : List Nat := [90, 76, 67, 51]

/-- The class `PacFile` of `pac_tool.py`: the classified content of one
archive entry.  `file_type` is one of the strings `"bmz"`, `"ttp"`,
`"other"`, exactly as in the source. -/
structure PacFile where
  file_type : String
  data : List Nat
  uncompressed_size : Nat
deriving DecidableEq, Repr

/-- `PacFile.from_bytes`: if the bytes start with `ZLC3`, read the
little-endian u32 at offset 4 (uncaught `struct.error` when fewer than 8
bytes are present) and keep `data[8:size]`; otherwise try to parse the
first `size` bytes as a `TtpFile`, classifying `"ttp"` on success and
`"other"` on any error (the bare `except` in the source). -/
def PacFile.from_bytes (data : List Nat) (size : Nat) : Except PErr PacFile :=
  if data.take 4 = zlc3Magic then
    match unpackU32 (data.drop 4) with
    | .error e => .error e
    | .ok us => .ok ⟨"bmz", (data.drop 8).take (size - 8), us⟩
  else
    match TtpFile.from_bytes (data.take size) with
    | .ok _ => .ok ⟨"ttp", data.take size, 0⟩
    | .error _ => .ok ⟨"other", data.take size, 0⟩

/-- External Python libraries used by `PacFile`: `zlib` (with its
compress/decompress contract) and `json` serialization of the editable
document.  The codec layer under verification treats these as black boxes;
only the inversion contract of `zlib` is relied upon. -/
structure ExtLibs where
  compress : List Nat → List Nat
  decompress : List Nat → Option (List Nat)
  jsonDumps : TtpFile → List Nat
  jsonLoads : List Nat → Option TtpDoc
  decompress_compress : ∀ b, decompress (compress b) = some b

/-- `PacFile.converted_data`: bmz → zlib-decompress (a corrupt stream
raises `ValueError`); ttp → JSON serialization of the re-parsed document;
other → the bytes unchanged. -/
def PacFile.converted_data (L : ExtLibs) (pf : PacFile) : Except PErr (List Nat) :=
  if pf.file_type = "bmz" then
    match L.decompress pf.data with
    | some b => .ok b
    | none => .error .valueErr
  else if pf.file_type = "ttp" then
    match TtpFile.from_bytes pf.data with
    | .ok t => .ok (L.jsonDumps t)
    | .error e => .error e
  else .ok pf.data

/-- `PacFile.to_bytes`: bmz → `ZLC3` + little-endian u32
`uncompressed_size` + stored data; anything else → stored data. -/
def PacFile.to_bytes (pf : PacFile) : Except PErr (List Nat) :=
  if pf.file_type = "bmz" then
    match packU32 pf.uncompressed_size with
    | .error e => .error e
    | .ok lp => .ok (zlc3Magic ++ lp ++ pf.data)
  else .ok pf.data

/-- `PacFile.convert_back`: `bmp` → compress, remembering the input length
as `uncompressed_size`; `json` → parse the document and re-encode it to
packed bytes; anything else → opaque passthrough. -/
def PacFile.convert_back (L : ExtLibs) (data : List Nat) (conv_extension : String) :
    Except PErr PacFile :=
  if conv_extension = "bmp" then .ok ⟨"bmz", L.compress data, data.length⟩
  else if conv_extension = "json" then
    match L.jsonLoads data with
    | none => .error .valueErr
    | some d =>
      match (TtpFile.from_dict d).to_bytes with
      | .error e => .error e
      | .ok bs => .ok ⟨"ttp", bs, 0⟩
  else .ok ⟨"other", data, 0⟩

/-- The class `PacEntry` of `pac_tool.py`: one archive entry. -/
structure PacEntry where
  offset : Nat
  size : Nat
  name : List SjUnit
  file_data : PacFile
deriving DecidableEq, Repr

/-- Model of `f.read(n)` on a seekable binary file: return the next `n`
bytes (fewer at end of file) and the new position. -/
def fread (data : List Nat) (pos n : Nat) : List Nat × Nat :=
  let bytes := (data.drop pos).take n
  (bytes, pos + bytes.length)

/-- `PacEntry.from_file`: read offset and size (8 bytes, `EOFError` when
fewer remain), then the fixed 56-byte name field (a short read here is NOT
checked: the bytes actually read are used as-is), truncate the name at the
first zero byte and decode it permissively; then seek to `offset`, read
`size` bytes, classify them via `PacFile.from_bytes`, and restore the
position.  Returns the entry and the restored stream position. -/
def PacEntry.from_file (data : List Nat) (pos : Nat) : Except PErr (PacEntry × Nat) :=
  match fread data pos 8 with
  | (os, pos1) =>
    if os.length < 8 then .error .truncated
    else
      match unpackU32 os, unpackU32 (os.drop 4) with
      | .ok offset, .ok size =>
        match fread data pos1 56 with
        | (nameData, pos2) =>
          let nameBytes := nameData.takeWhile (fun b => b ≠ 0)
          let name := sjisDecodeReplace nameBytes
          match fread data offset size with
          | (fileBytes, _) =>
            match PacFile.from_bytes fileBytes size with
            | .error e => .error e
            | .ok pf => .ok (⟨offset, size, name, pf⟩, pos2)
      | _, _ => .error .truncated

/-- `PacEntry.to_bytes`: offset and size as little-endian u32, then the
name encoded permissively, truncated to at most 55 bytes and right-padded
with zero bytes to exactly 56. -/
def PacEntry.to_bytes (e : PacEntry) : Except PErr (List Nat) :=
  let nameEncoded := (sjisEncodeReplace e.name).take 55
  let namePadded := nameEncoded ++ List.replicate (56 - nameEncoded.length) 0
  match packU32 e.offset with
  | .error e => .error e
  | .ok o =>
  match packU32 e.size with
  | .error e => .error e
  | .ok s => .ok (o ++ s ++ namePadded)

/-- `PacArchiveBuilder.add_entry`: strictly encode the name (so an
unencodable name raises `UnicodeEncodeError`); when the encoded form is 56
bytes or longer raise `ValueError` ("Too long entry name"); otherwise
append a fresh entry with provisional offset and size zero. -/
def PacArchiveBuilder.add_entry (entries : List PacEntry) (fd : PacFile)
    (name : List SjUnit) : Except PErr (List PacEntry) :=
  match sjisEncodeStrict name with
  | .error e => .error e
  | .ok enc =>
    if 56 ≤ enc.length then .error .valueErr
    else .ok (entries ++ [{ offset := 0, size := 0, name := name, file_data := fd }])

/-- The layout loop of `PacArchiveBuilder.pack`: walk the entries in
order, assign each the running offset, set its size to its packed-payload
byte length, collect its 64-byte header, and advance the offset by the
payload length.  Returns the headers and the updated entries. -/
def packLoop (cur : Nat) : List PacEntry → Except PErr (List (List Nat) × List PacEntry)
  | [] => .ok ([], [])
  | e :: rest =>
    match e.file_data.to_bytes with
    | .error err => .error err
    | .ok fb =>
      let e' : PacEntry := { e with offset := cur, size := fb.length }
      match e'.to_bytes with
      | .error err => .error err
      | .ok hdr =>
        match packLoop (cur + fb.length) rest with
        | .error err => .error err
        | .ok (hdrs, es) => .ok (hdr :: hdrs, e' :: es)

/-- `PacArchiveBuilder.pack`: emit the 4-byte little-endian entry count,
run the layout loop starting at `4 + 64 * n`, then emit every header in
input order followed by every packed payload in the same order.  Returns
the emitted byte stream and the updated entries. -/
def PacArchiveBuilder.pack (entries : List PacEntry) :
    Except PErr (List Nat × List PacEntry) :=
  match packU32 entries.length with
  | .error e => .error e
  | .ok cnt =>
  match packLoop (4 + 64 * entries.length) entries with
  | .error e => .error e
  | .ok (hdrs, es) =>
  match es.mapM (fun e => e.file_data.to_bytes) with
  | .error e => .error e
  | .ok pls => .ok (cnt ++ hdrs.flatten ++ pls.flatten, es)

/-- Well-formedness of a frame: every text field is representable in the
legacy encoding with an in-range encoded length, and every numeric field
fits an unsigned 32-bit integer. -/
def TtpFrame.wf (f : TtpFrame) : Prop :=
  sjisValid f.sprite_name.value = true ∧
  sjisValid f.se_name.value = true ∧
  sjisValid f.textbox_name.value = true ∧
  (sjisEncodeReplace f.sprite_name.value).length < 4294967296 ∧
  (sjisEncodeReplace f.se_name.value).length < 4294967296 ∧
  (sjisEncodeReplace f.textbox_name.value).length < 4294967296 ∧
  f.delay_ms < 4294967296 ∧ f.x_offset_textbox < 4294967296 ∧
  f.y_offset_textbox < 4294967296 ∧ f.x_offset < 4294967296 ∧
  f.y_offset < 4294967296

/-- Well-formedness of an animation document: the declared frame count
matches the live frame list, every numeric header field fits an unsigned
32-bit integer, every frame is well formed, and the optional trailing byte
respects the data-model invariant (present only for `variant_tag == 3`,
holding a single byte value). -/
def TtpFile.wf (t : TtpFile) : Prop :=
  t.maybe_ttp_type < 4294967296 ∧
  t.frame_count = t.frames.length ∧
  t.frames.length < 4294967296 ∧
  t.window_width < 4294967296 ∧
  t.window_height < 4294967296 ∧
  (∀ f ∈ t.frames, f.wf) ∧
  (t.onetime_wakeup_dont_play_sound.isSome = true → t.maybe_ttp_type = 3) ∧
  t.onetime_wakeup_dont_play_sound.getD 0 < 256

/-- The four bytes of a packed u32. -/
theorem u32le_length (n : Nat) : (u32le n).length = 4 := rfl

/-- Unpacking the four bytes of a packed in-range u32 recovers the value,
whatever follows. -/
theorem unpackU32_u32le_append (n : Nat) (rest : List Nat)
    (h : n < 4294967296) : unpackU32 (u32le n ++ rest) = .ok n := by
  simp only [u32le, List.cons_append, List.nil_append, unpackU32]
  congr 1
  omega

/-- Packing an in-range value succeeds. -/
theorem packU32_ok (n : Nat) (h : n < 4294967296) : packU32 n = .ok (u32le n) := by
  simp [packU32, h]

/-- Dropping four bytes skips exactly one packed u32. -/
theorem drop4_u32le_append (n : Nat) (rest : List Nat) :
    (u32le n ++ rest).drop 4 = rest := by
  simp [u32le]

/-- A lead byte is never a valid single byte. -/
theorem isLead_not_single (b : Nat) (h : isLead b = true) :
    isSingleByte b = false := by
  simp only [isLead, Bool.or_eq_true, Bool.and_eq_true, decide_eq_true_eq] at h
  simp only [isSingleByte, Bool.or_eq_false_iff, Bool.and_eq_false_iff,
    decide_eq_false_iff_not, not_le]
  omega

/-- A string whose units are all valid contains no replacement unit. -/
theorem not_repl_mem_of_valid (us : List SjUnit) (h : sjisValid us = true) :
    SjUnit.repl ∉ us := by
  intro hmem
  have := (List.all_eq_true.mp h) _ hmem
  simp [SjUnit.valid] at this

/-- On a replacement-free string the strict encoder succeeds and agrees
with the permissive encoder. -/
theorem sjisEncodeStrict_eq_replace (us : List SjUnit) (h : SjUnit.repl ∉ us) :
    sjisEncodeStrict us = .ok (sjisEncodeReplace us) := by
  induction us with
  | nil => rfl
  | cons u rest ih =>
    have hrest : SjUnit.repl ∉ rest := fun hm => h (List.mem_cons_of_mem _ hm)
    cases u with
    | single b => simp [sjisEncodeStrict, sjisEncodeReplace, ih hrest, Except.map]
    | double a b => simp [sjisEncodeStrict, sjisEncodeReplace, ih hrest, Except.map]
    | repl => exact absurd (List.mem_cons_self _ _) h

/-- Permissively decoding the encoding of an all-valid string recovers the
string. -/
theorem sjisDecode_encodeReplace (us : List SjUnit) (h : sjisValid us = true) :
    sjisDecodeReplace (sjisEncodeReplace us) = us := by
  induction us with
  | nil => rfl
  | cons u rest ih =>
    have hu : u.valid = true := (List.all_eq_true.mp h) _ (List.mem_cons_self _ _)
    have hrest : sjisValid rest = true :=
      List.all_eq_true.mpr (fun x hx => (List.all_eq_true.mp h) _ (List.mem_cons_of_mem _ hx))
    cases u with
    | single b =>
      have hb : isSingleByte b = true := hu
      rw [sjisEncodeReplace, sjisDecodeReplace.eq_def]
      simp [hb, ih hrest]
    | double a b =>
      have hab : isLead a = true ∧ isTrail b = true := by
        simpa [SjUnit.valid, Bool.and_eq_true] using hu
      rw [sjisEncodeReplace, sjisDecodeReplace.eq_def]
      simp [isLead_not_single a hab.1, hab.1, hab.2, ih hrest]
    | repl => simp [SjUnit.valid] at hu

/-- Strictly re-encoding a cleanly decoded byte string gives back exactly
the original bytes: position accounting by re-encoding equals the declared
byte count whenever decoding produced no replacement character. -/
theorem sjisEncodeStrict_decode (s : List Nat)
    (h : SjUnit.repl ∉ sjisDecodeReplace s) :
    sjisEncodeStrict (sjisDecodeReplace s) = .ok s := by
  induction s using sjisDecodeReplace.induct with
  | case1 => rfl
  | case2 b rest hb ih =>
    rw [sjisDecodeReplace.eq_def] at h ⊢
    simp only [hb, if_true] at h ⊢
    have hr : SjUnit.repl ∉ sjisDecodeReplace rest := fun hm => h (List.mem_cons_of_mem _ hm)
    simp [sjisEncodeStrict, ih hr, Except.map]
  | case3 b hb hl =>
    rw [sjisDecodeReplace.eq_def] at h
    simp [hb, hl] at h
  | case4 b hb hl b2 r2 ht ih =>
    rw [sjisDecodeReplace.eq_def] at h ⊢
    simp only [hb, hl, ht, if_true, if_false, Bool.false_eq_true] at h ⊢
    have hr : SjUnit.repl ∉ sjisDecodeReplace r2 := fun hm => h (List.mem_cons_of_mem _ hm)
    simp [sjisEncodeStrict, ih hr, Except.map]
  | case5 b hb hl b2 r2 hnt ih =>
    rw [sjisDecodeReplace.eq_def] at h
    simp [hb, hl, hnt] at h
  | case6 b rest hb hl ih =>
    rw [sjisDecodeReplace.eq_def] at h
    simp [hb, hl] at h

/-- Decoding a length-prefixed name whose payload is fully present yields
the permissive decode of exactly the payload bytes. -/
theorem resname_from_bytes_encoded (s rest : List Nat) (h : s.length < 4294967296) :
    ResName.from_bytes (u32le s.length ++ (s ++ rest)) = .ok ⟨sjisDecodeReplace s⟩ := by
  simp only [ResName.from_bytes, unpackU32_u32le_append _ _ h, drop4_u32le_append,
    List.take_left]

/-- Dropping a whole length-prefixed chunk reaches the following bytes. -/
theorem drop_chunk (s t : List Nat) :
    (u32le s.length ++ (s ++ t)).drop (4 + s.length) = t := by
  rw [← List.append_assoc]
  have hl : (u32le s.length ++ s).length = 4 + s.length := by
    simp [u32le]
    omega
  rw [← hl, List.drop_left]

/-- Unpacking five packed in-range u32 values recovers them, whatever
follows. -/
theorem unpack5U32_encoded (i1 i2 i3 i4 i5 : Nat) (rest : List Nat)
    (b1 : i1 < 4294967296) (b2 : i2 < 4294967296) (b3 : i3 < 4294967296)
    (b4 : i4 < 4294967296) (b5 : i5 < 4294967296) :
    unpack5U32 (u32le i1 ++ (u32le i2 ++ (u32le i3 ++ (u32le i4 ++ (u32le i5 ++ rest))))) =
      .ok (i1, i2, i3, i4, i5) := by
  have hlen : 20 ≤ (u32le i1 ++ (u32le i2 ++ (u32le i3 ++ (u32le i4 ++ (u32le i5 ++ rest))))).length := by
    simp [u32le]
  have d4 : (u32le i1 ++ (u32le i2 ++ (u32le i3 ++ (u32le i4 ++ (u32le i5 ++ rest))))).drop 4
      = u32le i2 ++ (u32le i3 ++ (u32le i4 ++ (u32le i5 ++ rest))) := drop4_u32le_append _ _
  have d8 : (u32le i1 ++ (u32le i2 ++ (u32le i3 ++ (u32le i4 ++ (u32le i5 ++ rest))))).drop 8
      = u32le i3 ++ (u32le i4 ++ (u32le i5 ++ rest)) := by
    rw [show (8 : Nat) = 4 + 4 from rfl, ← List.drop_drop, d4, drop4_u32le_append]
  have d12 : (u32le i1 ++ (u32le i2 ++ (u32le i3 ++ (u32le i4 ++ (u32le i5 ++ rest))))).drop 12
      = u32le i4 ++ (u32le i5 ++ rest) := by
    rw [show (12 : Nat) = 8 + 4 from rfl, ← List.drop_drop, d8, drop4_u32le_append]
  have d16 : (u32le i1 ++ (u32le i2 ++ (u32le i3 ++ (u32le i4 ++ (u32le i5 ++ rest))))).drop 16
      = u32le i5 ++ rest := by
    rw [show (16 : Nat) = 12 + 4 from rfl, ← List.drop_drop, d12, drop4_u32le_append]
  rw [unpack5U32, if_pos hlen, d4, d8, d12, d16,
    unpackU32_u32le_append _ _ b1, unpackU32_u32le_append _ _ b2,
    unpackU32_u32le_append _ _ b3, unpackU32_u32le_append _ _ b4,
    unpackU32_u32le_append _ _ b5]

/-- Unpacking four packed in-range u32 values recovers them, whatever
follows. -/
theorem unpack4U32_encoded (i1 i2 i3 i4 : Nat) (rest : List Nat)
    (b1 : i1 < 4294967296) (b2 : i2 < 4294967296) (b3 : i3 < 4294967296)
    (b4 : i4 < 4294967296) :
    unpack4U32 (u32le i1 ++ (u32le i2 ++ (u32le i3 ++ (u32le i4 ++ rest)))) =
      .ok (i1, i2, i3, i4) := by
  have hlen : 16 ≤ (u32le i1 ++ (u32le i2 ++ (u32le i3 ++ (u32le i4 ++ rest)))).length := by
    simp [u32le]
  have d4 : (u32le i1 ++ (u32le i2 ++ (u32le i3 ++ (u32le i4 ++ rest)))).drop 4
      = u32le i2 ++ (u32le i3 ++ (u32le i4 ++ rest)) := drop4_u32le_append _ _
  have d8 : (u32le i1 ++ (u32le i2 ++ (u32le i3 ++ (u32le i4 ++ rest)))).drop 8
      = u32le i3 ++ (u32le i4 ++ rest) := by
    rw [show (8 : Nat) = 4 + 4 from rfl, ← List.drop_drop, d4, drop4_u32le_append]
  have d12 : (u32le i1 ++ (u32le i2 ++ (u32le i3 ++ (u32le i4 ++ rest)))).drop 12
      = u32le i4 ++ rest := by
    rw [show (12 : Nat) = 8 + 4 from rfl, ← List.drop_drop, d8, drop4_u32le_append]
  rw [unpack4U32, if_pos hlen, d4, d8, d12,
    unpackU32_u32le_append _ _ b1, unpackU32_u32le_append _ _ b2,
    unpackU32_u32le_append _ _ b3, unpackU32_u32le_append _ _ b4]

/-- Dropping the 16-byte header of an encoded animation document reaches
the frame bytes. -/
theorem drop16_header (i1 i2 i3 i4 : Nat) (rest : List Nat) :
    (u32le i1 ++ (u32le i2 ++ (u32le i3 ++ (u32le i4 ++ rest)))).drop 16 = rest := by
  simp [u32le]

/-- Frame decode on three fully-present cleanly-decodable name chunks
followed by anything: the names come out as their permissive decodes and
the rest of the outcome is decided by the five-integer unpack. -/
theorem ttpframe_from_bytes_encoded (s1 s2 s3 rest : List Nat)
    (h1 : SjUnit.repl ∉ sjisDecodeReplace s1)
    (h2 : SjUnit.repl ∉ sjisDecodeReplace s2)
    (h3 : SjUnit.repl ∉ sjisDecodeReplace s3)
    (l1 : s1.length < 4294967296) (l2 : s2.length < 4294967296)
    (l3 : s3.length < 4294967296) :
    TtpFrame.from_bytes
        (u32le s1.length ++ (s1 ++ (u32le s2.length ++ (s2 ++ (u32le s3.length ++ (s3 ++ rest)))))) =
      match unpack5U32 rest with
      | .ok (i1, i2, i3, i4, i5) =>
          .ok { sprite_name := ⟨sjisDecodeReplace s1⟩, se_name := ⟨sjisDecodeReplace s2⟩,
                textbox_name := ⟨sjisDecodeReplace s3⟩, delay_ms := i1,
                x_offset_textbox := i2, y_offset_textbox := i3,
                x_offset := i4, y_offset := i5 }
      | .error e => .error e := by
  have d1 : (u32le s1.length ++ (s1 ++ (u32le s2.length ++ (s2 ++ (u32le s3.length ++ (s3 ++ rest)))))).drop (4 + s1.length)
      = u32le s2.length ++ (s2 ++ (u32le s3.length ++ (s3 ++ rest))) := drop_chunk _ _
  have d2 : (u32le s1.length ++ (s1 ++ (u32le s2.length ++ (s2 ++ (u32le s3.length ++ (s3 ++ rest)))))).drop (4 + s1.length + (4 + s2.length))
      = u32le s3.length ++ (s3 ++ rest) := by
    rw [← List.drop_drop, d1, drop_chunk]
  have d3 : (u32le s1.length ++ (s1 ++ (u32le s2.length ++ (s2 ++ (u32le s3.length ++ (s3 ++ rest)))))).drop (4 + s1.length + (4 + s2.length) + (4 + s3.length))
      = rest := by
    rw [← List.drop_drop, d2, drop_chunk]
  rw [TtpFrame.from_bytes]
  rw [resname_from_bytes_encoded s1 _ l1]
  simp only
  rw [sjisEncodeStrict_decode s1 h1]
  simp only [d1]
  rw [resname_from_bytes_encoded s2 _ l2]
  simp only
  rw [sjisEncodeStrict_decode s2 h2]
  simp only [d2]
  rw [resname_from_bytes_encoded s3 _ l3]
  simp only
  rw [sjisEncodeStrict_decode s3 h3]
  simp only [d3]
  cases unpack5U32 rest with
  | ok v => rcases v with ⟨i1, i2, i3, i4, i5⟩; rfl
  | error e => rfl

/-- Encoding a well-formed frame succeeds, decoding the result (with any
trailing bytes) gives back the frame, and the position advance recomputed
by the document loop equals the encoded frame's byte length. -/
theorem ttpframe_decode_encode (f : TtpFrame) (hf : f.wf) (rest : List Nat) :
    ∃ fb, TtpFrame.to_bytes f = .ok fb ∧
      TtpFrame.from_bytes (fb ++ rest) = .ok f ∧
      f.consumedLen = .ok fb.length := by
  obtain ⟨hv1, hv2, hv3, hl1, hl2, hl3, hd1, hd2, hd3, hd4, hd5⟩ := hf
  have hr1 : SjUnit.repl ∉ f.sprite_name.value := not_repl_mem_of_valid _ hv1
  have hr2 : SjUnit.repl ∉ f.se_name.value := not_repl_mem_of_valid _ hv2
  have hr3 : SjUnit.repl ∉ f.textbox_name.value := not_repl_mem_of_valid _ hv3
  have hdec1 : sjisDecodeReplace (sjisEncodeReplace f.sprite_name.value) = f.sprite_name.value :=
    sjisDecode_encodeReplace _ hv1
  have hdec2 : sjisDecodeReplace (sjisEncodeReplace f.se_name.value) = f.se_name.value :=
    sjisDecode_encodeReplace _ hv2
  have hdec3 : sjisDecodeReplace (sjisEncodeReplace f.textbox_name.value) = f.textbox_name.value :=
    sjisDecode_encodeReplace _ hv3
  refine ⟨u32le (sjisEncodeReplace f.sprite_name.value).length ++ (sjisEncodeReplace f.sprite_name.value ++
      (u32le (sjisEncodeReplace f.se_name.value).length ++ (sjisEncodeReplace f.se_name.value ++
      (u32le (sjisEncodeReplace f.textbox_name.value).length ++ (sjisEncodeReplace f.textbox_name.value ++
      (u32le f.delay_ms ++ (u32le f.x_offset_textbox ++ (u32le f.y_offset_textbox ++
      (u32le f.x_offset ++ u32le f.y_offset))))))))), ?_, ?_, ?_⟩
  · have hb1 : ResName.to_bytes f.sprite_name =
        .ok (u32le (sjisEncodeReplace f.sprite_name.value).length ++ sjisEncodeReplace f.sprite_name.value) := by
      rw [ResName.to_bytes, packU32_ok _ hl1]
    have hb2 : ResName.to_bytes f.se_name =
        .ok (u32le (sjisEncodeReplace f.se_name.value).length ++ sjisEncodeReplace f.se_name.value) := by
      rw [ResName.to_bytes, packU32_ok _ hl2]
    have hb3 : ResName.to_bytes f.textbox_name =
        .ok (u32le (sjisEncodeReplace f.textbox_name.value).length ++ sjisEncodeReplace f.textbox_name.value) := by
      rw [ResName.to_bytes, packU32_ok _ hl3]
    rw [TtpFrame.to_bytes, hb1, hb2, hb3, packU32_ok _ hd1, packU32_ok _ hd2,
      packU32_ok _ hd3, packU32_ok _ hd4, packU32_ok _ hd5]
    simp [List.append_assoc]
  · rw [show (u32le (sjisEncodeReplace f.sprite_name.value).length ++ (sjisEncodeReplace f.sprite_name.value ++
        (u32le (sjisEncodeReplace f.se_name.value).length ++ (sjisEncodeReplace f.se_name.value ++
        (u32le (sjisEncodeReplace f.textbox_name.value).length ++ (sjisEncodeReplace f.textbox_name.value ++
        (u32le f.delay_ms ++ (u32le f.x_offset_textbox ++ (u32le f.y_offset_textbox ++
        (u32le f.x_offset ++ u32le f.y_offset)))))))))) ++ rest =
        u32le (sjisEncodeReplace f.sprite_name.value).length ++ (sjisEncodeReplace f.sprite_name.value ++
        (u32le (sjisEncodeReplace f.se_name.value).length ++ (sjisEncodeReplace f.se_name.value ++
        (u32le (sjisEncodeReplace f.textbox_name.value).length ++ (sjisEncodeReplace f.textbox_name.value ++
        (u32le f.delay_ms ++ (u32le f.x_offset_textbox ++ (u32le f.y_offset_textbox ++
        (u32le f.x_offset ++ (u32le f.y_offset ++ rest))))))))))
      from by simp [List.append_assoc]]
    rw [ttpframe_from_bytes_encoded _ _ _ _
      (by rw [hdec1]; exact hr1) (by rw [hdec2]; exact hr2) (by rw [hdec3]; exact hr3)
      hl1 hl2 hl3]
    rw [unpack5U32_encoded _ _ _ _ _ _ hd1 hd2 hd3 hd4 hd5]
    simp only [hdec1, hdec2, hdec3]
  · rw [TtpFrame.consumedLen, sjisEncodeStrict_eq_replace _ hr1,
      sjisEncodeStrict_eq_replace _ hr2, sjisEncodeStrict_eq_replace _ hr3]
    simp [u32le]
    omega

/-- Reading back a sequence of encoded well-formed frames recovers the
frames and leaves exactly the trailing bytes. -/
theorem readFrames_encoded (fs : List TtpFrame) (rest : List Nat)
    (h : ∀ f ∈ fs, f.wf) :
    ∃ bss, fs.mapM TtpFrame.to_bytes = .ok bss ∧
      readFrames fs.length (bss.flatten ++ rest) = .ok (fs, rest) := by
  induction fs with
  | nil => exact ⟨[], rfl, rfl⟩
  | cons f fs ih =>
    obtain ⟨bss, hm, hr⟩ := ih (fun g hg => h g (List.mem_cons_of_mem _ hg))
    obtain ⟨fb, hfb, hdec, hcons⟩ :=
      ttpframe_decode_encode f (h f (List.mem_cons_self _ _)) (bss.flatten ++ rest)
    refine ⟨fb :: bss, ?_, ?_⟩
    · rw [List.mapM_cons, hfb, hm]; rfl
    · show readFrames (fs.length + 1) ((fb :: bss).flatten ++ rest) = .ok (f :: fs, rest)
      rw [List.flatten_cons, List.append_assoc, readFrames]
      simp only [hdec, hcons, List.drop_left, hr]

/-- C4: for every well-formed AnimationDocument, encoding succeeds and
decoding the encoded bytes yields a document equal to the original (the
transient declared frame count included, since well-formedness pins it to
the frame list length). -/
theorem ttp_roundtrip (t : TtpFile) (h : t.wf) :
    ∃ bs, TtpFile.to_bytes t = .ok bs ∧ TtpFile.from_bytes bs = .ok t := by
  obtain ⟨h1, h2, h3, h4, h5, hfs, how1, how2⟩ := h
  have hfc : t.frame_count < 4294967296 := by rw [h2]; exact h3
  obtain ⟨tailB, htail, hrem⟩ :
      ∃ tailB, (if t.maybe_ttp_type = 3 then
          match t.onetime_wakeup_dont_play_sound with
          | some v =>
            match packU8 v with
            | .error e => .error e
            | .ok b => .ok [b]
          | none => .ok []
        else (.ok [] : Except PErr (List Nat))) = .ok tailB ∧
        (if t.maybe_ttp_type = 3 then
          match tailB with
          | [] => none
          | b :: _ => some b
        else none) = t.onetime_wakeup_dont_play_sound := by
    cases hov : t.onetime_wakeup_dont_play_sound with
    | some v =>
      have htag : t.maybe_ttp_type = 3 := how1 (by rw [hov]; rfl)
      have hv : v < 256 := by have hg := how2; rw [hov] at hg; exact hg
      exact ⟨[v], by simp [htag, packU8, hv], by simp [htag]⟩
    | none =>
      by_cases htag : t.maybe_ttp_type = 3
      · exact ⟨[], by simp [htag], by simp [htag]⟩
      · exact ⟨[], by simp [htag], by simp [htag]⟩
  obtain ⟨bss, hm, hr⟩ := readFrames_encoded t.frames tailB hfs
  refine ⟨u32le t.maybe_ttp_type ++ (u32le t.frame_count ++ (u32le t.window_width ++
    (u32le t.window_height ++ (bss.flatten ++ tailB)))), ?_, ?_⟩
  · rw [TtpFile.to_bytes, packU32_ok _ h1, packU32_ok _ hfc, packU32_ok _ h4,
      packU32_ok _ h5, hm, htail]
    simp [List.append_assoc]
  · rw [TtpFile.from_bytes, unpack4U32_encoded _ _ _ _ _ h1 hfc h4 h5]
    simp only [drop16_header]
    rw [h2, hr]
    simp only [hrem]
    rw [← h2]

/-- Taking four bytes reads exactly one packed u32. -/
theorem take4_u32le_append (n : Nat) (rest : List Nat) :
    (u32le n ++ rest).take 4 = u32le n := by
  simp [u32le]

/-- A buffer of at least four bytes always unpacks. -/
theorem unpackU32_ok_of_length (l : List Nat) (h : 4 ≤ l.length) :
    ∃ v, unpackU32 l = .ok v := by
  match l with
  | b0 :: b1 :: b2 :: b3 :: rest => exact ⟨_, rfl⟩
  | [] | [_] | [_, _] | [_, _, _] => simp at h

/-- A buffer of fewer than four bytes fails to unpack. -/
theorem unpackU32_err_of_length (l : List Nat) (h : l.length < 4) :
    unpackU32 l = .error .truncated := by
  match l with
  | [] | [_] | [_, _] | [_, _, _] => rfl
  | b0 :: b1 :: b2 :: b3 :: rest => simp at h; omega

/-- A buffer of at least twenty bytes always unpacks as five u32 values. -/
theorem unpack5U32_ok_of_length (l : List Nat) (h : 20 ≤ l.length) :
    ∃ v, unpack5U32 l = .ok v := by
  obtain ⟨v1, h1⟩ := unpackU32_ok_of_length l (by omega)
  obtain ⟨v2, h2⟩ := unpackU32_ok_of_length (l.drop 4) (by simp; omega)
  obtain ⟨v3, h3⟩ := unpackU32_ok_of_length (l.drop 8) (by simp; omega)
  obtain ⟨v4, h4⟩ := unpackU32_ok_of_length (l.drop 12) (by simp; omega)
  obtain ⟨v5, h5⟩ := unpackU32_ok_of_length (l.drop 16) (by simp; omega)
  refine ⟨(v1, v2, v3, v4, v5), ?_⟩
  rw [unpack5U32, if_pos h, h1, h2, h3, h4, h5]

/-- Strictly encoding a string that contains the replacement character
raises the encoding error. -/
theorem sjisEncodeStrict_error_of_repl (us : List SjUnit) (h : SjUnit.repl ∈ us) :
    sjisEncodeStrict us = .error .encodeErr := by
  induction us with
  | nil => cases h
  | cons u rest ih =>
    cases u with
    | repl => rfl
    | single b =>
      have hr : SjUnit.repl ∈ rest := by
        cases h with
        | tail _ hm => exact hm
      simp [sjisEncodeStrict, ih hr, Except.map]
    | double a b =>
      have hr : SjUnit.repl ∈ rest := by
        cases h with
        | tail _ hm => exact hm
      simp [sjisEncodeStrict, ih hr, Except.map]

/-- Every successfully encoded entry header is exactly 64 bytes. -/
theorem pacentry_to_bytes_length (e : PacEntry) (bs : List Nat)
    (h : PacEntry.to_bytes e = .ok bs) : bs.length = 64 := by
  rw [PacEntry.to_bytes] at h
  by_cases h1 : e.offset < 4294967296
  · rw [packU32_ok _ h1] at h
    simp only [] at h
    by_cases h2 : e.size < 4294967296
    · rw [packU32_ok _ h2] at h
      simp only [] at h
      have hb : u32le e.offset ++ u32le e.size ++
          ((sjisEncodeReplace e.name).take 55 ++
            List.replicate (56 - ((sjisEncodeReplace e.name).take 55).length) 0) = bs :=
        Except.ok.inj h
      rw [← hb]
      have hmin : ((sjisEncodeReplace e.name).take 55).length ≤ 55 := by
        simp [List.length_take]
      simp [u32le, List.length_append, List.length_replicate]
    · rw [packU32, if_neg h2] at h
      simp at h
  · rw [packU32, if_neg h1] at h
    simp at h

/-- C4 (witness): a concrete well-formed document — variant tag 3, one
frame with an ASCII sprite name, trailing byte set — round-trips. -/
theorem ttp_roundtrip_witness :
    TtpFile.wf ⟨3, 1, 640, 480, [⟨⟨[.single 97]⟩, ⟨[]⟩, ⟨[]⟩, 100, 1, 2, 3, 4⟩], some 1⟩ ∧
    ∃ bs, TtpFile.to_bytes
        ⟨3, 1, 640, 480, [⟨⟨[.single 97]⟩, ⟨[]⟩, ⟨[]⟩, 100, 1, 2, 3, 4⟩], some 1⟩ = .ok bs ∧
      TtpFile.from_bytes bs =
        .ok ⟨3, 1, 640, 480, [⟨⟨[.single 97]⟩, ⟨[]⟩, ⟨[]⟩, 100, 1, 2, 3, 4⟩], some 1⟩ :=
  ⟨by unfold TtpFile.wf TtpFrame.wf; refine ⟨by decide, rfl, ?_⟩; decide,
   ttp_roundtrip _ (by unfold TtpFile.wf TtpFrame.wf; refine ⟨by decide, rfl, ?_⟩; decide)⟩

/-- C1 (counterexample): packing the editable document whose declared
frame count is 5 but whose frame list is empty produces a binary header
whose frame-count field holds the stale declared value 5, not the true
list length 0. -/
theorem ttp_frame_count_stale_cex :
    TtpFile.to_bytes (TtpFile.from_dict ⟨0, 5, 0, 0, [], none⟩) =
      .ok [0, 0, 0, 0, 5, 0, 0, 0, 0, 0, 0, 0, 0, 0, 0, 0] ∧
    (TtpFile.from_dict ⟨0, 5, 0, 0, [], none⟩).frames.length = 0 ∧
    [5, 0, 0, 0] ≠ u32le 0 :=
  ⟨rfl, rfl, by decide⟩

/-- C1 (amended): the frame-count field of the encoded 4-integer header
always carries the stored declared `frame_count`, which `from_dict`
copies verbatim from the editable document — not the live length of the
frame list. -/
theorem ttp_to_bytes_frame_count :
    (∀ (t : TtpFile) (bs : List Nat), TtpFile.to_bytes t = .ok bs →
      (bs.drop 4).take 4 = u32le t.frame_count) ∧
    (∀ d : TtpDoc, (TtpFile.from_dict d).frame_count = d.frame_count ∧
      (TtpFile.from_dict d).frames.length = d.frames.length) := by
  constructor
  · intro t bs hbs
    rw [TtpFile.to_bytes] at hbs
    by_cases k1 : t.maybe_ttp_type < 4294967296
    · rw [packU32_ok _ k1] at hbs
      simp only [] at hbs
      by_cases k2 : t.frame_count < 4294967296
      · rw [packU32_ok _ k2] at hbs
        simp only [] at hbs
        by_cases k3 : t.window_width < 4294967296
        · rw [packU32_ok _ k3] at hbs
          simp only [] at hbs
          by_cases k4 : t.window_height < 4294967296
          · rw [packU32_ok _ k4] at hbs
            simp only [] at hbs
            cases hm : List.mapM TtpFrame.to_bytes t.frames with
            | error e => rw [hm] at hbs; simp at hbs
            | ok fbs =>
              rw [hm] at hbs
              simp only [] at hbs
              cases htl : (if t.maybe_ttp_type = 3 then
                  match t.onetime_wakeup_dont_play_sound with
                  | some v =>
                    match packU8 v with
                    | .error e => .error e
                    | .ok b => .ok [b]
                  | none => .ok []
                else (.ok [] : Except PErr (List Nat))) with
              | error e => rw [htl] at hbs; simp at hbs
              | ok tailB =>
                rw [htl] at hbs
                simp only [] at hbs
                have hb := (Except.ok.inj hbs)
                rw [← hb]
                simp only [List.append_assoc, drop4_u32le_append, take4_u32le_append]
          · rw [packU32, if_neg k4] at hbs; simp at hbs
        · rw [packU32, if_neg k3] at hbs; simp at hbs
      · rw [packU32, if_neg k2] at hbs; simp at hbs
    · rw [packU32, if_neg k1] at hbs; simp at hbs
  · intro d
    exact ⟨rfl, by simp [TtpFile.from_dict]⟩

/-- C1 (witness): the amended statement at the counterexample document —
the header field is the little-endian rendering of the declared count 5
while the frame list is empty. -/
theorem ttp_to_bytes_frame_count_witness :
    (([0, 0, 0, 0, 5, 0, 0, 0, 0, 0, 0, 0, 0, 0, 0, 0] : List Nat).drop 4).take 4 =
      u32le (TtpFile.from_dict ⟨0, 5, 0, 0, [], none⟩).frame_count :=
  ttp_to_bytes_frame_count.1 (TtpFile.from_dict ⟨0, 5, 0, 0, [], none⟩) _ rfl

/-- C2 (counterexample): a payload consisting of the bare `ZLC3` marker
(4 bytes, declared size 4) has the magic prefix yet is not classified at
all — decode raises an uncaught truncation error reading the missing
length field, so it is neither CompressedBitmap nor Animation nor Opaque. -/
theorem pacfile_short_zlc3_cex :
    ([90, 76, 67, 51] : List Nat).take 4 = zlc3Magic ∧
    PacFile.from_bytes [90, 76, 67, 51] 4 = .error .truncated :=
  ⟨rfl, rfl⟩

/-- C2 (amended): classification order on decode — a `ZLC3`-prefixed
payload of at least 8 bytes is always CompressedBitmap with the
little-endian u32 at bytes 4..8 as `uncompressed_size` and bytes
`8..size` as compressed data; a `ZLC3`-prefixed payload shorter than 8
bytes makes decode fail with a truncation error instead of classifying;
any other payload is Animation exactly when its first `size` bytes parse
as an AnimationDocument, and Opaque otherwise, storing those bytes
unchanged. -/
theorem pacfile_classification (data : List Nat) (size : Nat) :
    (data.take 4 = zlc3Magic →
      (8 ≤ data.length →
        ∃ us, unpackU32 (data.drop 4) = .ok us ∧
          PacFile.from_bytes data size = .ok ⟨"bmz", (data.drop 8).take (size - 8), us⟩) ∧
      (data.length < 8 → PacFile.from_bytes data size = .error .truncated)) ∧
    (data.take 4 ≠ zlc3Magic →
      PacFile.from_bytes data size =
        match TtpFile.from_bytes (data.take size) with
        | .ok _ => .ok ⟨"ttp", data.take size, 0⟩
        | .error _ => .ok ⟨"other", data.take size, 0⟩) := by
  constructor
  · intro hm
    constructor
    · intro hlen
      obtain ⟨us, hus⟩ := unpackU32_ok_of_length (data.drop 4) (by simp; omega)
      refine ⟨us, hus, ?_⟩
      rw [PacFile.from_bytes, if_pos hm, hus]
    · intro hlt
      have herr : unpackU32 (data.drop 4) = .error .truncated :=
        unpackU32_err_of_length _ (by simp; omega)
      rw [PacFile.from_bytes, if_pos hm, herr]
  · intro hm
    rw [PacFile.from_bytes, if_neg hm]

/-- C2 (witness): a 10-byte `ZLC3` payload of declared size 10 is
classified as a compressed bitmap with `uncompressed_size` 7 and the two
remaining bytes as compressed data. -/
theorem pacfile_classification_witness :
    PacFile.from_bytes [90, 76, 67, 51, 7, 0, 0, 0, 1, 2] 10 =
      .ok ⟨"bmz", [1, 2], 7⟩ := by
  obtain ⟨us, hus, hpf⟩ :=
    ((pacfile_classification [90, 76, 67, 51, 7, 0, 0, 0, 1, 2] 10).1 (by decide)).1
      (by decide)
  have h7 : (Except.ok 7 : Except PErr Nat) = .ok us := by rw [← hus]; rfl
  obtain rfl : (7 : Nat) = us := Except.ok.inj h7
  exact hpf

/-- C7 (counterexample): an archive stream holding only the 8-byte
offset/size pair — far fewer than 64 bytes — decodes successfully with an
empty name and an empty opaque payload rather than failing with a
truncation error. -/
theorem pacentry_short_stream_cex :
    ([0, 0, 0, 0, 0, 0, 0, 0] : List Nat).length < 64 ∧
    PacEntry.from_file [0, 0, 0, 0, 0, 0, 0, 0] 0 =
      .ok (⟨0, 0, [], ⟨"other", [], 0⟩⟩, 8) :=
  ⟨by decide, rfl⟩

/-- C7 (amended): entry-header decode fails with a truncation error
exactly when fewer than 8 bytes remain for the offset/size pair; the
56-byte name read performs no length check, so a stream with at least 8
bytes can decode successfully with a short name field. -/
theorem pacentry_from_file_truncation :
    (∀ (data : List Nat) (pos : Nat), data.length < pos + 8 →
      PacEntry.from_file data pos = .error .truncated) ∧
    PacEntry.from_file [1, 0, 0, 0, 0, 0, 0, 0] 0 =
      .ok (⟨1, 0, [], ⟨"other", [], 0⟩⟩, 8) := by
  constructor
  · intro data pos h
    rw [PacEntry.from_file]
    simp only [fread]
    have hshort : ((data.drop pos).take 8).length < 8 := by
      simp [List.length_take, List.length_drop]
      omega
    rw [if_pos hshort]
  · rfl

/-- C7 (witness): the amended truncation bound applied to the empty
stream. -/
theorem pacentry_from_file_truncation_witness :
    PacEntry.from_file [] 0 = .error .truncated :=
  pacentry_from_file_truncation.1 [] 0 (by decide)

/-- C8: adding an entry whose name strictly encodes to at most 55 bytes
succeeds, appending the entry with its name intact (no truncation), while
an encoded name of 56 bytes or more is rejected with the name-too-long
error. -/
theorem add_entry_name_capacity (entries : List PacEntry) (fd : PacFile)
    (name : List SjUnit) (enc : List Nat) (h : sjisEncodeStrict name = .ok enc) :
    (enc.length ≤ 55 →
      PacArchiveBuilder.add_entry entries fd name =
        .ok (entries ++ [⟨0, 0, name, fd⟩])) ∧
    (56 ≤ enc.length →
      PacArchiveBuilder.add_entry entries fd name = .error .valueErr) := by
  constructor
  · intro hl
    rw [PacArchiveBuilder.add_entry, h]
    simp only []
    rw [if_neg (by omega)]
  · intro hl
    rw [PacArchiveBuilder.add_entry, h]
    simp only []
    rw [if_pos hl]

/-- C8 (witness): a 55-byte ASCII name is accepted, a 56-byte one is
rejected. -/
theorem add_entry_name_capacity_witness :
    PacArchiveBuilder.add_entry [] ⟨"other", [], 0⟩ (List.replicate 55 (.single 65)) =
      .ok [⟨0, 0, List.replicate 55 (.single 65), ⟨"other", [], 0⟩⟩] ∧
    PacArchiveBuilder.add_entry [] ⟨"other", [], 0⟩ (List.replicate 56 (.single 65)) =
      .error .valueErr :=
  ⟨(add_entry_name_capacity [] ⟨"other", [], 0⟩ (List.replicate 55 (.single 65))
      (List.replicate 55 65) (by rfl)).1 (by decide),
   (add_entry_name_capacity [] ⟨"other", [], 0⟩ (List.replicate 56 (.single 65))
      (List.replicate 56 65) (by rfl)).2 (by decide)⟩

/-- C10: the encoded entry header of any entry with in-range offset and
size is the 4-byte offset, the 4-byte size, and the 56-byte name field
(the permissively encoded name capped at 55 bytes and right-padded with
zero bytes), and every successfully encoded header is exactly 64 bytes
long whatever the name. -/
theorem pacentry_header_bytes (e : PacEntry)
    (h1 : e.offset < 4294967296) (h2 : e.size < 4294967296) :
    PacEntry.to_bytes e = .ok (u32le e.offset ++ u32le e.size ++
      ((sjisEncodeReplace e.name).take 55 ++
        List.replicate (56 - ((sjisEncodeReplace e.name).take 55).length) 0)) ∧
    (∀ bs, PacEntry.to_bytes e = .ok bs → bs.length = 64) := by
  have hb : PacEntry.to_bytes e = .ok (u32le e.offset ++ u32le e.size ++
      ((sjisEncodeReplace e.name).take 55 ++
        List.replicate (56 - ((sjisEncodeReplace e.name).take 55).length) 0)) := by
    rw [PacEntry.to_bytes, packU32_ok _ h1, packU32_ok _ h2]
  exact ⟨hb, fun bs hbs => pacentry_to_bytes_length e bs hbs⟩

/-- C10 (witness): a 60-character name is capped at 55 bytes and padded;
the header is 64 bytes. -/
theorem pacentry_header_bytes_witness :
    PacEntry.to_bytes ⟨1, 2, List.replicate 60 (.single 66), ⟨"other", [], 0⟩⟩ =
      .ok (u32le 1 ++ u32le 2 ++
        ((sjisEncodeReplace (List.replicate 60 (.single 66))).take 55 ++
          List.replicate
            (56 - ((sjisEncodeReplace (List.replicate 60 (.single 66))).take 55).length) 0)) :=
  (pacentry_header_bytes ⟨1, 2, List.replicate 60 (.single 66), ⟨"other", [], 0⟩⟩
    (by decide) (by decide)).1

/-- C5 (counterexample): a frame whose first text field declares length 1
and holds the invalid byte 255 makes frame decode raise an encoding error
— the in-frame position advance strictly re-encodes the decoded value,
whose replacement character has no legacy encoding — instead of consuming
`4 + L` bytes and proceeding. -/
theorem frame_invalid_text_cex :
    TtpFrame.from_bytes [1, 0, 0, 0, 255] = .error .encodeErr ∧
    (TtpFrame.from_bytes [1, 0, 0, 0, 255]).isOk = false :=
  ⟨rfl, rfl⟩

/-- C5 (amended): when every text field's declared bytes are fully
present and decode cleanly, the in-frame consumption of each TextField is
`4 + L` and the frame consumes the three TextField consumptions plus 20;
but when the first TextField's bytes decode with a replacement character,
frame decode fails with an encoding error rather than consuming `4 + L`. -/
theorem frame_consumption :
    (∀ s1 s2 s3 tail : List Nat,
      SjUnit.repl ∉ sjisDecodeReplace s1 → SjUnit.repl ∉ sjisDecodeReplace s2 →
      SjUnit.repl ∉ sjisDecodeReplace s3 →
      s1.length < 4294967296 → s2.length < 4294967296 → s3.length < 4294967296 →
      20 ≤ tail.length →
      ∃ fr, TtpFrame.from_bytes
          (u32le s1.length ++ (s1 ++ (u32le s2.length ++ (s2 ++
            (u32le s3.length ++ (s3 ++ tail)))))) = .ok fr ∧
        fr.consumedLen =
          .ok (4 + s1.length + (4 + s2.length) + (4 + s3.length) + 20)) ∧
    (∀ (data : List Nat) (L : Nat), unpackU32 data = .ok L →
      SjUnit.repl ∈ sjisDecodeReplace ((data.drop 4).take L) →
      TtpFrame.from_bytes data = .error .encodeErr) := by
  constructor
  · intro s1 s2 s3 tail h1 h2 h3 l1 l2 l3 htail
    rw [ttpframe_from_bytes_encoded s1 s2 s3 tail h1 h2 h3 l1 l2 l3]
    obtain ⟨⟨i1, i2, i3, i4, i5⟩, hu⟩ := unpack5U32_ok_of_length tail htail
    rw [hu]
    refine ⟨_, rfl, ?_⟩
    rw [TtpFrame.consumedLen]
    simp only []
    rw [sjisEncodeStrict_decode s1 h1]
    simp only []
    rw [sjisEncodeStrict_decode s2 h2]
    simp only []
    rw [sjisEncodeStrict_decode s3 h3]
  · intro data L hL hrepl
    rw [TtpFrame.from_bytes, ResName.from_bytes, hL]
    simp only []
    rw [sjisEncodeStrict_error_of_repl _ hrepl]

/-- C5 (witness): three empty names followed by a 20-byte integer block
decode as a frame whose recomputed consumption is `4 + 4 + 4 + 20`. -/
theorem frame_consumption_witness :
    ∃ fr, TtpFrame.from_bytes
        (u32le 0 ++ ([] ++ (u32le 0 ++ ([] ++ (u32le 0 ++ ([] ++ List.replicate 20 0)))))) =
        .ok fr ∧
      fr.consumedLen = .ok (4 + 0 + (4 + 0) + (4 + 0) + 20) :=
  frame_consumption.1 [] [] [] (List.replicate 20 0)
    (by decide) (by decide) (by decide) (by decide) (by decide) (by decide) (by decide)

/-- C6 (counterexample): a document declaring one frame whose first text
field declares 2 bytes but only the invalid byte 255 remains — the stream
is exhausted before the frame is fully read — fails with the encoding
error, not with the truncation error the claim names. -/
theorem ttp_truncation_encode_error_cex :
    TtpFile.from_bytes
        [3, 0, 0, 0, 1, 0, 0, 0, 0, 0, 0, 0, 0, 0, 0, 0, 2, 0, 0, 0, 255] =
      .error .encodeErr ∧
    (PErr.encodeErr ≠ PErr.truncated) :=
  ⟨rfl, by decide⟩

/-- C6 (amended): decode fails whenever the byte stream is exhausted
before the declared structure is read, with a truncation error when the
shortfall hits a fixed-size field — the 16-byte document header, a
TextField length prefix (before the first name, after one, or after two
cleanly decoded names, and likewise at document level when a frame is
due), or the 20-byte integer block — but with an encoding error instead
of a truncation error whenever a TextField whose declared length overruns
or covers invalid bytes decodes with a replacement character, at both
frame and document level. -/
theorem ttp_truncation_errors :
    (∀ data : List Nat, data.length < 16 →
      TtpFile.from_bytes data = .error .truncated) ∧
    (∀ data : List Nat, data.length < 4 →
      TtpFrame.from_bytes data = .error .truncated) ∧
    (∀ s1 tail : List Nat, SjUnit.repl ∉ sjisDecodeReplace s1 →
      s1.length < 4294967296 → tail.length < 4 →
      TtpFrame.from_bytes (u32le s1.length ++ (s1 ++ tail)) = .error .truncated) ∧
    (∀ s1 s2 tail : List Nat,
      SjUnit.repl ∉ sjisDecodeReplace s1 → SjUnit.repl ∉ sjisDecodeReplace s2 →
      s1.length < 4294967296 → s2.length < 4294967296 → tail.length < 4 →
      TtpFrame.from_bytes (u32le s1.length ++ (s1 ++ (u32le s2.length ++ (s2 ++ tail)))) =
        .error .truncated) ∧
    (∀ s1 s2 s3 tail : List Nat,
      SjUnit.repl ∉ sjisDecodeReplace s1 → SjUnit.repl ∉ sjisDecodeReplace s2 →
      SjUnit.repl ∉ sjisDecodeReplace s3 →
      s1.length < 4294967296 → s2.length < 4294967296 → s3.length < 4294967296 →
      tail.length < 20 →
      TtpFrame.from_bytes (u32le s1.length ++ (s1 ++ (u32le s2.length ++ (s2 ++
        (u32le s3.length ++ (s3 ++ tail)))))) = .error .truncated) ∧
    (∀ (data : List Nat) (L : Nat), unpackU32 data = .ok L →
      SjUnit.repl ∈ sjisDecodeReplace ((data.drop 4).take L) →
      TtpFrame.from_bytes data = .error .encodeErr) ∧
    (∀ (data : List Nat) (t fc ww wh L : Nat),
      unpack4U32 data = .ok (t, fc, ww, wh) → 0 < fc →
      unpackU32 (data.drop 16) = .ok L →
      SjUnit.repl ∈ sjisDecodeReplace (((data.drop 16).drop 4).take L) →
      TtpFile.from_bytes data = .error .encodeErr) ∧
    (∀ (data : List Nat) (t fc ww wh : Nat),
      unpack4U32 data = .ok (t, fc, ww, wh) → 0 < fc →
      (data.drop 16).length < 4 →
      TtpFile.from_bytes data = .error .truncated) := by
  have hb1 : ∀ data : List Nat, data.length < 4 →
      TtpFrame.from_bytes data = .error .truncated := by
    intro data h
    rw [TtpFrame.from_bytes, ResName.from_bytes, unpackU32_err_of_length data h]
  have hdfr : ∀ (data : List Nat) (L : Nat), unpackU32 data = .ok L →
      SjUnit.repl ∈ sjisDecodeReplace ((data.drop 4).take L) →
      TtpFrame.from_bytes data = .error .encodeErr := by
    intro data L hL hrepl
    rw [TtpFrame.from_bytes, ResName.from_bytes, hL]
    simp only []
    rw [sjisEncodeStrict_error_of_repl _ hrepl]
  refine ⟨?_, hb1, ?_, ?_, ?_, hdfr, ?_, ?_⟩
  · intro data h
    rw [TtpFile.from_bytes, unpack4U32, if_neg (by omega)]
  · intro s1 tail h1 l1 ht
    rw [TtpFrame.from_bytes, resname_from_bytes_encoded s1 tail l1]
    simp only []
    rw [sjisEncodeStrict_decode s1 h1]
    simp only []
    rw [drop_chunk s1 tail, ResName.from_bytes, unpackU32_err_of_length tail ht]
  · intro s1 s2 tail h1 h2 l1 l2 ht
    have d2 : (u32le s1.length ++ (s1 ++ (u32le s2.length ++ (s2 ++ tail)))).drop
        (4 + s1.length + (4 + s2.length)) = tail := by
      rw [← List.drop_drop, drop_chunk, drop_chunk]
    rw [TtpFrame.from_bytes, resname_from_bytes_encoded s1 _ l1]
    simp only []
    rw [sjisEncodeStrict_decode s1 h1]
    simp only []
    rw [drop_chunk s1 (u32le s2.length ++ (s2 ++ tail)),
      resname_from_bytes_encoded s2 tail l2]
    simp only []
    rw [sjisEncodeStrict_decode s2 h2]
    simp only []
    rw [d2, ResName.from_bytes, unpackU32_err_of_length tail ht]
  · intro s1 s2 s3 tail h1 h2 h3 l1 l2 l3 htail
    rw [ttpframe_from_bytes_encoded s1 s2 s3 tail h1 h2 h3 l1 l2 l3]
    rw [unpack5U32, if_neg (by omega)]
  · intro data t fc ww wh L h4 hfc hL hrepl
    obtain ⟨n, rfl⟩ : ∃ n, fc = n + 1 := ⟨fc - 1, by omega⟩
    rw [TtpFile.from_bytes, h4]
    simp only []
    rw [readFrames, hdfr (data.drop 16) L hL hrepl]
  · intro data t fc ww wh h4 hfc hlen
    obtain ⟨n, rfl⟩ : ∃ n, fc = n + 1 := ⟨fc - 1, by omega⟩
    rw [TtpFile.from_bytes, h4]
    simp only []
    rw [readFrames, hb1 (data.drop 16) hlen]

/-- C6 (witness): every case of the amended statement at a concrete
input — the empty document stream; frames truncated at each of the three
length prefixes and at the integer block; a frame and a one-frame
document whose first text field declares 2 bytes but holds only the
invalid byte 254; and a one-frame document exhausted at the frame's first
length prefix. -/
theorem ttp_truncation_errors_witness :
    TtpFile.from_bytes [] = .error .truncated ∧
    TtpFrame.from_bytes [1, 2] = .error .truncated ∧
    TtpFrame.from_bytes (u32le 0 ++ ([] ++ [9])) = .error .truncated ∧
    TtpFrame.from_bytes (u32le 0 ++ ([] ++ (u32le 0 ++ ([] ++ [])))) =
      .error .truncated ∧
    TtpFrame.from_bytes
        (u32le 0 ++ ([] ++ (u32le 0 ++ ([] ++ (u32le 0 ++ ([] ++ [])))))) =
      .error .truncated ∧
    TtpFrame.from_bytes [2, 0, 0, 0, 254] = .error .encodeErr ∧
    TtpFile.from_bytes
        [3, 0, 0, 0, 1, 0, 0, 0, 0, 0, 0, 0, 0, 0, 0, 0, 2, 0, 0, 0, 254] =
      .error .encodeErr ∧
    TtpFile.from_bytes [3, 0, 0, 0, 1, 0, 0, 0, 0, 0, 0, 0, 0, 0, 0, 0, 7] =
      .error .truncated :=
  ⟨ttp_truncation_errors.1 [] (by decide),
   ttp_truncation_errors.2.1 [1, 2] (by decide),
   ttp_truncation_errors.2.2.1 [] [9] (by decide) (by decide) (by decide),
   ttp_truncation_errors.2.2.2.1 [] [] [] (by decide) (by decide) (by decide)
     (by decide) (by decide),
   ttp_truncation_errors.2.2.2.2.1 [] [] [] [] (by decide) (by decide) (by decide)
     (by decide) (by decide) (by decide) (by decide),
   ttp_truncation_errors.2.2.2.2.2.1 [2, 0, 0, 0, 254] 2 rfl (by decide),
   ttp_truncation_errors.2.2.2.2.2.2.1
     [3, 0, 0, 0, 1, 0, 0, 0, 0, 0, 0, 0, 0, 0, 0, 0, 2, 0, 0, 0, 254]
     3 1 0 0 2 rfl (by decide) rfl (by decide),
   ttp_truncation_errors.2.2.2.2.2.2.2
     [3, 0, 0, 0, 1, 0, 0, 0, 0, 0, 0, 0, 0, 0, 0, 0, 7]
     3 1 0 0 rfl (by decide) (by decide)⟩

/-- C9: for a compressed-bitmap payload whose data inflates to `b` (with
`b` of u32-representable length), extracting yields `b`; converting back
under the bitmap target kind compresses `b` remembering its length; the
packed bytes are the `ZLC3` marker, the little-endian u32 length of `b`,
then the compressed bytes; and the compressed portion of the packed bytes
inflates back to exactly `b`. -/
theorem bmz_roundtrip (L : ExtLibs) (pf : PacFile) (b : List Nat)
    (h1 : pf.file_type = "bmz") (h2 : L.decompress pf.data = some b)
    (h3 : b.length < 4294967296) :
    PacFile.converted_data L pf = .ok b ∧
    PacFile.convert_back L b "bmp" = .ok ⟨"bmz", L.compress b, b.length⟩ ∧
    PacFile.to_bytes ⟨"bmz", L.compress b, b.length⟩ =
      .ok (zlc3Magic ++ u32le b.length ++ L.compress b) ∧
    L.decompress ((zlc3Magic ++ u32le b.length ++ L.compress b).drop 8) = some b := by
  refine ⟨?_, ?_, ?_, ?_⟩
  · rw [PacFile.converted_data, if_pos h1, h2]
  · rw [PacFile.convert_back, if_pos rfl]
  · rw [PacFile.to_bytes, if_pos rfl, packU32_ok _ h3]
  · have hdrop : (zlc3Magic ++ u32le b.length ++ L.compress b).drop 8 = L.compress b := by
      simp [zlc3Magic, u32le]
    rw [hdrop, L.decompress_compress]

/-- C9 (witness): with an inversion-satisfying library model, a bitmap
payload holding the two bytes 7, 8 extracts to them and round-trips. -/
theorem bmz_roundtrip_witness :
    PacFile.converted_data
        ⟨fun d => d, fun d => some d, fun _ => [], fun _ => none, fun _ => rfl⟩
        ⟨"bmz", [7, 8], 2⟩ = .ok [7, 8] :=
  (bmz_roundtrip ⟨fun d => d, fun d => some d, fun _ => [], fun _ => none, fun _ => rfl⟩
    ⟨"bmz", [7, 8], 2⟩ [7, 8] rfl rfl (by decide)).1

/-- Invariant of the layout loop: starting from `cur`, the updated
entries keep their payload and name, each gets its packed size, offsets
accumulate the sizes of the preceding entries, and the collected headers
are the entries' 64-byte encodings in order. -/
theorem packLoop_spec (l : List PacEntry) : ∀ (cur : Nat) (hdrs : List (List Nat))
    (es : List PacEntry), packLoop cur l = .ok (hdrs, es) →
    es.length = l.length ∧
    (∀ i (hi : i < es.length) (hil : i < l.length),
      (es.get ⟨i, hi⟩).file_data = (l.get ⟨i, hil⟩).file_data ∧
      (es.get ⟨i, hi⟩).name = (l.get ⟨i, hil⟩).name ∧
      ∃ fb, (es.get ⟨i, hi⟩).file_data.to_bytes = .ok fb ∧
        (es.get ⟨i, hi⟩).size = fb.length ∧
        (es.get ⟨i, hi⟩).offset = cur + ((es.take i).map PacEntry.size).sum) ∧
    es.mapM PacEntry.to_bytes = .ok hdrs ∧
    (∀ hb ∈ hdrs, hb.length = 64) := by
  induction l with
  | nil =>
    intro cur hdrs es h
    rw [packLoop] at h
    injection h with h
    injection h with hh he
    subst hh; subst he
    exact ⟨rfl, fun i hi => absurd hi (by simp), rfl, fun hb hmem => absurd hmem (by simp)⟩
  | cons e rest ih =>
    intro cur hdrs es h
    rw [packLoop] at h
    cases hfb : e.file_data.to_bytes with
    | error err => rw [hfb] at h; simp at h
    | ok fb =>
      rw [hfb] at h
      simp only [] at h
      cases hhd : PacEntry.to_bytes { e with offset := cur, size := fb.length } with
      | error err => rw [hhd] at h; simp at h
      | ok hdr =>
        rw [hhd] at h
        simp only [] at h
        cases hrec : packLoop (cur + fb.length) rest with
        | error err => rw [hrec] at h; simp at h
        | ok pr =>
          obtain ⟨hdrs', es'⟩ := pr
          rw [hrec] at h
          simp only [] at h
          injection h with h
          injection h with hh he
          subst hh; subst he
          obtain ⟨ihlen, ihpt, ihmap, ihhdr⟩ := ih (cur + fb.length) hdrs' es' hrec
          refine ⟨by simp [ihlen], ?_, ?_, ?_⟩
          · intro i hi hil
            cases i with
            | zero =>
              refine ⟨rfl, rfl, fb, hfb, rfl, by simp⟩
            | succ j =>
              have hj : j < es'.length := by simp at hi; omega
              have hjl : j < rest.length := by simp at hil; omega
              obtain ⟨hf, hn, fb', hfb', hsz, hoff⟩ := ihpt j hj hjl
              refine ⟨hf, hn, fb', hfb', hsz, ?_⟩
              have hszhead : ({ e with offset := cur, size := fb.length } : PacEntry).size
                  = fb.length := rfl
              simp only [List.get_cons_succ, List.take_succ_cons, List.map_cons,
                List.sum_cons, hszhead] at hoff ⊢
              omega
          · rw [List.mapM_cons, hhd, ihmap]; rfl
          · intro hb hmem
            cases hmem with
            | head => exact pacentry_to_bytes_length _ _ hhd
            | tail _ hm => exact ihhdr hb hm

/-- C3: after a successful build, the updated entries carry the input
payloads unchanged, each entry's size is its packed-payload byte length,
each offset is `4 + 64 * n` plus the sum of the packed sizes of all
preceding entries, and the emitted stream is the little-endian entry
count, the 64-byte headers in input order, then the packed payloads
contiguously in the same order. -/
theorem pack_layout (entries : List PacEntry) (out : List Nat) (es : List PacEntry)
    (h : PacArchiveBuilder.pack entries = .ok (out, es)) :
    es.length = entries.length ∧
    (∀ i (hi : i < es.length) (hil : i < entries.length),
      (es.get ⟨i, hi⟩).file_data = (entries.get ⟨i, hil⟩).file_data ∧
      ∃ fb, (es.get ⟨i, hi⟩).file_data.to_bytes = .ok fb ∧
        (es.get ⟨i, hi⟩).size = fb.length ∧
        (es.get ⟨i, hi⟩).offset =
          4 + 64 * entries.length + ((es.take i).map PacEntry.size).sum) ∧
    (∃ hdrs pls, es.mapM PacEntry.to_bytes = .ok hdrs ∧
      (∀ hb ∈ hdrs, hb.length = 64) ∧
      es.mapM (fun e => e.file_data.to_bytes) = .ok pls ∧
      out = u32le entries.length ++ hdrs.flatten ++ pls.flatten) := by
  rw [PacArchiveBuilder.pack] at h
  by_cases hc : entries.length < 4294967296
  · rw [packU32_ok _ hc] at h
    simp only [] at h
    cases hloop : packLoop (4 + 64 * entries.length) entries with
    | error err => rw [hloop] at h; simp at h
    | ok pr =>
      obtain ⟨hdrs, es'⟩ := pr
      rw [hloop] at h
      simp only [] at h
      cases hpls : es'.mapM (fun e => e.file_data.to_bytes) with
      | error err => rw [hpls] at h; simp at h
      | ok pls =>
        rw [hpls] at h
        simp only [] at h
        injection h with h
        injection h with hout hes
        subst hout
        subst hes
        obtain ⟨hlen, hpt, hmap, hhdr⟩ := packLoop_spec entries _ _ _ hloop
        exact ⟨hlen,
          fun i hi hil => ⟨(hpt i hi hil).1, (hpt i hi hil).2.2⟩,
          hdrs, pls, hmap, hhdr, hpls, rfl⟩
  · rw [packU32, if_neg hc] at h
    simp at h

/-- C3 (witness): a one-entry archive with a 2-byte opaque payload — the
entry gets offset 68 = 4 + 64 and size 2, and the emitted stream is the
count, the 64-byte header, then the payload. -/
theorem pack_layout_witness :
    PacArchiveBuilder.pack [⟨0, 0, [.single 97], ⟨"other", [1, 2], 0⟩⟩] =
      .ok ([1, 0, 0, 0] ++
            ([68, 0, 0, 0] ++ [2, 0, 0, 0] ++ [97] ++ List.replicate 55 0) ++ [1, 2],
          [⟨68, 2, [.single 97], ⟨"other", [1, 2], 0⟩⟩]) ∧
    ([⟨68, 2, [.single 97], ⟨"other", [1, 2], 0⟩⟩] : List PacEntry).length =
      ([⟨0, 0, [.single 97], ⟨"other", [1, 2], 0⟩⟩] : List PacEntry).length :=
  ⟨rfl, (pack_layout [⟨0, 0, [.single 97], ⟨"other", [1, 2], 0⟩⟩] _ _ rfl).1⟩
